import Mathlib

/-! Verification development for the GaLore gradient low-rank projection
code (`src/galore/src/galore/matrix_ops.rs`).

Matrices over `ℚ` stand for `ndarray::Array2<f32>`; a matrix is its
row-major list of rows, `rows` is the number of rows and `cols` the length
of the first row (rectangularity is the predicate `Mat.WF`).  Operations
that panic in `ndarray` — dimension mismatches in `dot` and in elementwise
arithmetic, out-of-range slicing, and the remainder-by-zero that
`self.step % self.update_freq` hits when `update_freq == 0` — are modelled
as `Option.none`.  The external thin SVD (`ndarray_linalg::SVD`) is an
oracle parameter `svd : Mat → Mat × Mat` returning the pair `(u, vt)`; the
singular values returned by the library are never used by this code, so
they are omitted from the oracle.  `SvdSpec` records the shape contract
assumed of the trusted library.  `f32::sqrt` inside the Adam optimizer is
likewise an oracle `ℚ → ℚ`. -/

set_option allowUnsafeReducibility true in
attribute [semireducible] Rat.add Rat.mul Rat.sub Rat.inv Rat.ofScientific

structure Mat where
  data : List (List ℚ)
deriving DecidableEq

def Mat.rows (A : Mat) : Nat := A.data.length

def Mat.cols (A : Mat) : Nat := (A.data.headD []).length

def Mat.WF (A : Mat) : Prop := ∀ r ∈ A.data, r.length = A.cols

instance (A : Mat) : Decidable A.WF := List.decidableBAll _ _

/-- Scalar multiplication `c * A` (elementwise, total in `ndarray`). -/
def Mat.smul (c : ℚ) (A : Mat) : Mat := ⟨A.data.map (List.map (fun x => c * x))⟩

/-- Matrix plus scalar, `A + c` (broadcast, total in `ndarray`). -/
def Mat.adds (A : Mat) (c : ℚ) : Mat := ⟨A.data.map (List.map (fun x => x + c))⟩

/-- Matrix divided by a scalar, `A / c`. -/
def Mat.divs (A : Mat) (c : ℚ) : Mat := ⟨A.data.map (List.map (fun x => x / c))⟩

/-- `A.map(f)` of `ndarray`. -/
def Mat.mapEntries (f : ℚ → ℚ) (A : Mat) : Mat := ⟨A.data.map (List.map f)⟩

/-- Elementwise binary operation between two same-shape matrices; `ndarray`
panics when the shapes disagree, modelled by `none`. -/
def Mat.ewise (f : ℚ → ℚ → ℚ) (A B : Mat) : Option Mat :=
  if A.rows = B.rows ∧ A.cols = B.cols then
    some ⟨List.zipWith (List.zipWith f) A.data B.data⟩
  else none

def Mat.transpose (A : Mat) : Mat :=
  ⟨(List.range A.cols).map (fun j => A.data.map (fun r => r.getD j 0))⟩

/-- Column `j` of `A`, as a list. -/
def Mat.colv (A : Mat) (j : Nat) : List ℚ := A.data.map (fun r => r.getD j 0)

/-- Matrix product `A.dot(&B)`; `ndarray` panics unless the inner
dimensions agree, modelled by `none`. -/
def Mat.dot (A B : Mat) : Option Mat :=
  if A.cols = B.rows then
    some ⟨A.data.map (fun ra => (List.range B.cols).map
      (fun j => (List.zipWith (fun x y => x * y) ra (B.colv j)).sum))⟩
  else none

/-- `u.slice_axis_inplace(Axis(1), Slice::from(0..k))`: keep the first `k`
columns; `ndarray` panics when `k` exceeds the axis length. -/
def Mat.takeCols (A : Mat) (k : Nat) : Option Mat :=
  if k ≤ A.cols then some ⟨A.data.map (List.take k)⟩ else none

/-- `vt.slice_axis_inplace(Axis(0), Slice::from(0..k))`: keep the first `k`
rows; `ndarray` panics when `k` exceeds the axis length. -/
def Mat.takeRows (A : Mat) (k : Nat) : Option Mat :=
  if k ≤ A.rows then some ⟨A.data.take k⟩ else none

/-- `Array2::zeros((m, n))`. -/
def Mat.zeros (m n : Nat) : Mat := ⟨List.replicate m (List.replicate n 0)⟩

/-- `struct GaLoreProjection` of `matrix_ops.rs`. -/
structure GaLoreProjection where
  rank : Nat
  updateFreq : Nat
  emaDecay : ℚ
  step : Nat
  projections : List (Mat × Mat)
deriving DecidableEq

/-- `GaLoreProjection::new`: stores the configuration unchecked. -/
def GaLoreProjection.new (rank updateFreq : Nat) (emaDecay : ℚ) : GaLoreProjection :=
  { rank := rank, updateFreq := updateFreq, emaDecay := emaDecay
    step := 0, projections := [] }

/-- `fn ema_update`: `old * self.ema_decay + new * (1.0 - self.ema_decay)`. -/
def GaLoreProjection.emaUpdate (st : GaLoreProjection) (old cand : Mat) : Option Mat :=
  Mat.ewise (fun x y => x + y) (Mat.smul st.emaDecay old) (Mat.smul (1 - st.emaDecay) cand)

/-- `fn compute_projection_matrices`.  The SVD oracle stands for
`grad.svd(true, true).unwrap()` (the returned singular values are unused by
the source).  Note the source reads `self.projections.get(0)` — the FIRST
slot's stored pair — whichever slot is being recomputed. -/
def GaLoreProjection.computeProjectionMatrices (st : GaLoreProjection)
    (svd : Mat → Mat × Mat) (grad : Mat) : Option (Mat × Mat) := do
  let u ← (svd grad).1.takeCols st.rank
  let vt ← (svd grad).2.takeRows st.rank
  match st.projections.head? with
  | some pq => do
      let p ← st.emaUpdate pq.1 u
      let q ← st.emaUpdate pq.2 vt.transpose
      return (p, q)
  | none => return (u, vt.transpose)

/-- `fn update_projections` body: `gradients.par_iter().map(|grad|
self.compute_projection_matrices(grad)).collect()`, written as structural
recursion over the slot list (the parallel collect preserves slot order, and
every `compute_projection_matrices` call reads the pre-assignment `self`). -/
def GaLoreProjection.computeAll (st : GaLoreProjection) (svd : Mat → Mat × Mat) :
    List Mat → Option (List (Mat × Mat))
  | [] => some []
  | g :: gs => do
      let pq ← st.computeProjectionMatrices svd g
      let rest ← st.computeAll svd gs
      return pq :: rest

/-- `fn project`: `p.t().dot(&grad.dot(q))` (the `&self` receiver is unused). -/
def GaLoreProjection.project (grad p q : Mat) : Option Mat := do
  let gq ← grad.dot q
  p.transpose.dot gq

/-- `fn project_back`: `p.dot(&update.dot(&q.t()))` (the `&self` receiver is
unused). -/
def GaLoreProjection.projectBack (upd p q : Mat) : Option Mat := do
  let uq ← upd.dot q.transpose
  p.dot uq

/-- `gradients.par_iter().zip(self.projections.par_iter()).map(project)
.collect()`: order-preserving zip that stops at the shorter list, as
structural recursion. -/
def projPairs : List Mat → List (Mat × Mat) → Option (List Mat)
  | g :: gs, pq :: pqs => do
      let r ← GaLoreProjection.project g pq.1 pq.2
      let rest ← projPairs gs pqs
      return r :: rest
  | _, _ => some []

/-- `updates.par_iter().zip(self.projections.par_iter()).map(project_back)
.collect()`. -/
def backPairs : List Mat → List (Mat × Mat) → Option (List Mat)
  | u :: us, pq :: pqs => do
      let r ← GaLoreProjection.projectBack u pq.1 pq.2
      let rest ← backPairs us pqs
      return r :: rest
  | _, _ => some []

/-- `fn project_gradient`.  The step counter is incremented first; with
`update_freq == 0` the refresh test `self.step % self.update_freq == 0`
panics (remainder by zero), modelled by `none`. -/
def GaLoreProjection.projectGradient (st : GaLoreProjection) (svd : Mat → Mat × Mat)
    (grads : List Mat) : Option (GaLoreProjection × List Mat) := do
  let st1 : GaLoreProjection := { st with step := st.step + 1 }
  if st1.updateFreq = 0 then none
  else do
    let st2 ←
      if st1.step % st1.updateFreq = 0 ∨ st1.projections = [] then do
        let ps ← st1.computeAll svd grads
        pure { st1 with projections := ps }
      else pure st1
    let outs ← projPairs grads st2.projections
    return (st2, outs)

/-- `fn project_update`. -/
def GaLoreProjection.projectUpdate (st : GaLoreProjection) (updates : List Mat) :
    Option (List Mat) :=
  backPairs updates st.projections

/-- `struct Adam` of `matrix_ops.rs`. -/
structure Adam where
  lr : ℚ
  beta1 : ℚ
  beta2 : ℚ
  epsilon : ℚ
  m : List Mat
  v : List Mat
  t : Nat
deriving DecidableEq

/-- `Adam::new`. -/
def Adam.new (lr beta1 beta2 epsilon : ℚ) : Adam :=
  { lr := lr, beta1 := beta1, beta2 := beta2, epsilon := epsilon
    m := [], v := [], t := 0 }

/-- Body of the per-slot closure in `Adam::compute_updates`: returns the new
first moment, the new second moment and the produced update for one slot.
`t` is the already-incremented time step; `sqrtf` stands for `f32::sqrt`. -/
def Adam.slotUpdate (a : Adam) (t : Nat) (sqrtf : ℚ → ℚ) (g mAcc vAcc : Mat) :
    Option (Mat × Mat × Mat) := do
  let m1 ← Mat.ewise (fun x y => x + y) (Mat.smul a.beta1 mAcc)
    (Mat.smul (1 - a.beta1) g)
  let gg ← Mat.ewise (fun x y => x * y) (Mat.smul (1 - a.beta2) g) g
  let v1 ← Mat.ewise (fun x y => x + y) (Mat.smul a.beta2 vAcc) gg
  let mHat := m1.divs (1 - a.beta1 ^ t)
  let vHat := v1.divs (1 - a.beta2 ^ t)
  let upd ← Mat.ewise (fun x y => x / y) (Mat.smul (-a.lr) mHat)
    ((vHat.mapEntries sqrtf).adds a.epsilon)
  return (m1, v1, upd)

/-- The `gradients.iter().zip(self.m.iter_mut()).zip(self.v.iter_mut())`
loop of `Adam::compute_updates`: processes min-length many slots, leaving
any leftover accumulator entries untouched; returns the new `m` list, new
`v` list and the update list. -/
def Adam.loopSlots (a : Adam) (t : Nat) (sqrtf : ℚ → ℚ) :
    List Mat → List Mat → List Mat → Option (List Mat × List Mat × List Mat)
  | g :: gs, mm :: ms, vv :: vs => do
      let r ← a.slotUpdate t sqrtf g mm vv
      let rest ← a.loopSlots t sqrtf gs ms vs
      return (r.1 :: rest.1, r.2.1 :: rest.2.1, r.2.2 :: rest.2.2)
  | _, ms, vs => some (ms, vs, [])

/-- `impl Optimizer for Adam { fn compute_updates }`: increments `t`, lazily
zero-initializes both moment lists when `self.m` is empty, then runs the
zipped per-slot loop. -/
def Adam.computeUpdates (a : Adam) (sqrtf : ℚ → ℚ) (grads : List Mat) :
    Option (Adam × List Mat) := do
  let t1 := a.t + 1
  let m0 := if a.m = [] then grads.map (fun g => Mat.zeros g.rows g.cols) else a.m
  let v0 := if a.m = [] then grads.map (fun g => Mat.zeros g.rows g.cols) else a.v
  let r ← a.loopSlots t1 sqrtf grads m0 v0
  return ({ a with m := r.1, v := r.2.1, t := t1 }, r.2.2)

/-- `struct GaLoreOptimizer<O: Optimizer>`; the base optimizer state is the
type parameter `σ` and its `compute_updates` method is passed explicitly. -/
structure GaLoreOptimizer (σ : Type) where
  baseOptimizer : σ
  galore : GaLoreProjection

/-- `GaLoreOptimizer::new`. -/
def GaLoreOptimizer.new {σ : Type} (base : σ) (rank updateFreq : Nat)
    (emaDecay : ℚ) : GaLoreOptimizer σ :=
  { baseOptimizer := base, galore := GaLoreProjection.new rank updateFreq emaDecay }

/-- `GaLoreOptimizer::step`: project, delegate, project back; no state of
its own. -/
def GaLoreOptimizer.step {σ : Type} (o : GaLoreOptimizer σ)
    (compute : σ → List Mat → Option (σ × List Mat))
    (svd : Mat → Mat × Mat) (grads : List Mat) :
    Option (GaLoreOptimizer σ × List Mat) := do
  let r1 ← o.galore.projectGradient svd grads
  let r2 ← compute o.baseOptimizer r1.2
  let outs ← r1.1.projectUpdate r2.2
  return ({ baseOptimizer := r2.1, galore := r1.1 }, outs)

/-- Shape contract of the trusted thin-SVD library routine, for matrices
with positive dimensions: `u` is `rows × min(rows, cols)`, `vt` is
`min(rows, cols) × cols`, both rectangular. -/
def SvdSpec (svd : Mat → Mat × Mat) : Prop :=
  ∀ g : Mat, 0 < g.rows → 0 < g.cols →
    ((svd g).1.rows = g.rows ∧ (svd g).1.cols = min g.rows g.cols ∧ (svd g).1.WF) ∧
    ((svd g).2.rows = min g.rows g.cols ∧ (svd g).2.cols = g.cols ∧ (svd g).2.WF)

/-- Well-formedness of a gradient list relative to the configured rank:
rectangular, positive dimensions, and `rank ≤ min(rows, cols)`. -/
def GradsOK (rank : Nat) (grads : List Mat) : Prop :=
  ∀ g ∈ grads, g.WF ∧ 0 < g.rows ∧ 0 < g.cols ∧ rank ≤ g.rows ∧ rank ≤ g.cols

instance (rank : Nat) (grads : List Mat) : Decidable (GradsOK rank grads) :=
  List.decidableBAll _ _

/-- Well-formedness of the stored bases: rectangular with `rank` columns
and positively many rows. -/
def StateOK (st : GaLoreProjection) : Prop :=
  ∀ pq ∈ st.projections,
    (pq.1.WF ∧ pq.1.cols = st.rank ∧ 0 < pq.1.rows) ∧
    (pq.2.WF ∧ pq.2.cols = st.rank ∧ 0 < pq.2.rows)

instance (st : GaLoreProjection) : Decidable (StateOK st) :=
  List.decidableBAll _ _

/-- The stored bases match the gradients' full shapes slotwise: slot `i`'s
row basis has `gᵢ.rows` rows and its column basis has `gᵢ.cols` rows. -/
def MatchOK (st : GaLoreProjection) (grads : List Mat) : Prop :=
  ∀ gp ∈ grads.zip st.projections, gp.2.1.rows = gp.1.rows ∧ gp.2.2.rows = gp.1.cols

instance (st : GaLoreProjection) (grads : List Mat) : Decidable (MatchOK st grads) :=
  List.decidableBAll _ _

/-- A concrete SVD oracle satisfying `SvdSpec`, used to instantiate
witnesses. -/
def svdOracle (g : Mat) : Mat × Mat :=
  (Mat.zeros g.rows (min g.rows g.cols), Mat.zeros (min g.rows g.cols) g.cols)

/-- A toy oracle for 1×1 matrices: both factors are the matrix itself. -/
def svdToy (g : Mat) : Mat × Mat := (g, g)

/-- Default matrix used with `List.getD` in indexed statements. -/
def dMat : Mat := ⟨[]⟩

lemma Mat.mapEntries_rows (f : ℚ → ℚ) (A : Mat) : (A.mapEntries f).rows = A.rows := by
  simp [Mat.mapEntries, Mat.rows]

lemma Mat.mapEntries_cols (f : ℚ → ℚ) (A : Mat) : (A.mapEntries f).cols = A.cols := by
  obtain ⟨d⟩ := A
  cases d <;> simp [Mat.mapEntries, Mat.cols]

lemma Mat.mapEntries_WF (f : ℚ → ℚ) (A : Mat) (h : A.WF) : (A.mapEntries f).WF := by
  intro r hr
  obtain ⟨d⟩ := A
  simp only [Mat.mapEntries, List.mem_map] at hr
  obtain ⟨r0, hr0, rfl⟩ := hr
  rw [List.length_map, Mat.mapEntries_cols]
  exact h r0 hr0

lemma Mat.smul_eq_mapEntries (c : ℚ) (A : Mat) :
    Mat.smul c A = A.mapEntries (fun x => c * x) := rfl

lemma Mat.smul_rows (c : ℚ) (A : Mat) : (Mat.smul c A).rows = A.rows :=
  Mat.mapEntries_rows _ _

lemma Mat.smul_cols (c : ℚ) (A : Mat) : (Mat.smul c A).cols = A.cols :=
  Mat.mapEntries_cols _ _

lemma Mat.smul_WF (c : ℚ) (A : Mat) (h : A.WF) : (Mat.smul c A).WF :=
  Mat.mapEntries_WF _ _ h

lemma Mat.adds_eq_mapEntries (A : Mat) (c : ℚ) :
    Mat.adds A c = A.mapEntries (fun x => x + c) := rfl

lemma Mat.divs_eq_mapEntries (A : Mat) (c : ℚ) :
    Mat.divs A c = A.mapEntries (fun x => x / c) := rfl

lemma Mat.ewise_eq_some (f : ℚ → ℚ → ℚ) (A B C : Mat)
    (h : Mat.ewise f A B = some C) :
    A.rows = B.rows ∧ A.cols = B.cols ∧
      C = ⟨List.zipWith (List.zipWith f) A.data B.data⟩ := by
  unfold Mat.ewise at h
  split at h
  · exact ⟨by tauto, by tauto, (Option.some_injective _ h).symm⟩
  · exact absurd h (by simp)

lemma Mat.ewise_rows (f : ℚ → ℚ → ℚ) (A B C : Mat)
    (h : Mat.ewise f A B = some C) : C.rows = A.rows := by
  obtain ⟨hr, _, rfl⟩ := Mat.ewise_eq_some f A B C h
  simp [Mat.rows] at hr ⊢
  omega

lemma Mat.ewise_cols (f : ℚ → ℚ → ℚ) (A B C : Mat)
    (h : Mat.ewise f A B = some C) : C.cols = A.cols := by
  obtain ⟨hr, hc, rfl⟩ := Mat.ewise_eq_some f A B C h
  obtain ⟨da⟩ := A
  obtain ⟨db⟩ := B
  cases da <;> cases db <;>
    simp_all [Mat.rows, Mat.cols, Mat.WF]

lemma zipWith_zipWith_mem (f : ℚ → ℚ → ℚ) :
    ∀ (la lb : List (List ℚ)) (r : List ℚ),
      r ∈ List.zipWith (List.zipWith f) la lb →
      ∃ x ∈ la, ∃ y ∈ lb, r = List.zipWith f x y := by
  intro la
  induction la with
  | nil => intro lb r hr; simp at hr
  | cons a la ih =>
    intro lb r hr
    cases lb with
    | nil => simp at hr
    | cons b lb =>
      simp only [List.zipWith_cons_cons, List.mem_cons] at hr
      rcases hr with h | h
      · exact ⟨a, by simp, b, by simp, h⟩
      · obtain ⟨x, hx, y, hy, rfl⟩ := ih lb r h
        exact ⟨x, by simp [hx], y, by simp [hy], rfl⟩

lemma Mat.ewise_WF (f : ℚ → ℚ → ℚ) (A B C : Mat)
    (hA : A.WF) (hB : B.WF) (h : Mat.ewise f A B = some C) : C.WF := by
  have hcols := Mat.ewise_cols f A B C h
  obtain ⟨hr, hc, hC⟩ := Mat.ewise_eq_some f A B C h
  intro r hr'
  rw [hC] at hr'
  obtain ⟨x, hx, y, hy, rfl⟩ := zipWith_zipWith_mem f A.data B.data r hr'
  rw [List.length_zipWith, hA x hx, hB y hy, hcols, ← hc]
  omega

lemma Mat.dot_eq_some (A B C : Mat) (h : A.dot B = some C) :
    A.cols = B.rows ∧
      C = ⟨A.data.map (fun ra => (List.range B.cols).map
        (fun j => (List.zipWith (fun x y => x * y) ra (B.colv j)).sum))⟩ := by
  unfold Mat.dot at h
  split at h
  · exact ⟨by assumption, (Option.some_injective _ h).symm⟩
  · exact absurd h (by simp)

lemma Mat.dot_rows (A B C : Mat) (h : A.dot B = some C) : C.rows = A.rows := by
  obtain ⟨_, rfl⟩ := Mat.dot_eq_some A B C h
  simp [Mat.rows]

lemma Mat.dot_cols (A B C : Mat) (h : A.dot B = some C) (h0 : 0 < A.rows) :
    C.cols = B.cols := by
  obtain ⟨_, rfl⟩ := Mat.dot_eq_some A B C h
  obtain ⟨da⟩ := A
  cases da with
  | nil => simp [Mat.rows] at h0
  | cons a l => simp [Mat.cols]

lemma Mat.dot_WF (A B C : Mat) (h : A.dot B = some C) : C.WF := by
  obtain ⟨_, rfl⟩ := Mat.dot_eq_some A B C h
  intro r hr
  obtain ⟨da⟩ := A
  cases da with
  | nil => simp at hr
  | cons a l =>
    simp only [List.mem_map] at hr
    obtain ⟨ra, _, rfl⟩ := hr
    simp [Mat.cols]

lemma Mat.takeCols_eq_some (A : Mat) (k : Nat) (C : Mat)
    (h : A.takeCols k = some C) :
    k ≤ A.cols ∧ C = ⟨A.data.map (List.take k)⟩ := by
  unfold Mat.takeCols at h
  split at h
  · exact ⟨by assumption, (Option.some_injective _ h).symm⟩
  · exact absurd h (by simp)

lemma Mat.takeCols_rows (A : Mat) (k : Nat) (C : Mat)
    (h : A.takeCols k = some C) : C.rows = A.rows := by
  obtain ⟨_, rfl⟩ := Mat.takeCols_eq_some A k C h
  simp [Mat.rows]

lemma Mat.takeCols_cols (A : Mat) (k : Nat) (C : Mat)
    (h : A.takeCols k = some C) (h0 : 0 < A.rows) : C.cols = k := by
  obtain ⟨hk, rfl⟩ := Mat.takeCols_eq_some A k C h
  obtain ⟨da⟩ := A
  cases da with
  | nil => simp [Mat.rows] at h0
  | cons a l =>
    simp only [Mat.cols, List.map_cons, List.headD_cons, List.length_take]
    simp [Mat.cols] at hk
    omega

lemma Mat.takeCols_WF (A : Mat) (k : Nat) (C : Mat)
    (h : A.takeCols k = some C) (hA : A.WF) : C.WF := by
  have hr0 : C.rows = A.rows := Mat.takeCols_rows A k C h
  obtain ⟨hk, hC⟩ := Mat.takeCols_eq_some A k C h
  intro r hr
  rw [hC] at hr
  simp only [List.mem_map] at hr
  obtain ⟨r0, hr0', rfl⟩ := hr
  have hcols : C.cols = k := by
    apply Mat.takeCols_cols A k C h
    show 0 < A.data.length
    exact List.length_pos.mpr (List.ne_nil_of_mem hr0')
  rw [List.length_take, hA r0 hr0', hcols]
  omega

lemma Mat.takeRows_eq_some (A : Mat) (k : Nat) (C : Mat)
    (h : A.takeRows k = some C) :
    k ≤ A.rows ∧ C = ⟨A.data.take k⟩ := by
  unfold Mat.takeRows at h
  split at h
  · exact ⟨by assumption, (Option.some_injective _ h).symm⟩
  · exact absurd h (by simp)

lemma Mat.takeRows_rows (A : Mat) (k : Nat) (C : Mat)
    (h : A.takeRows k = some C) : C.rows = k := by
  obtain ⟨hk, rfl⟩ := Mat.takeRows_eq_some A k C h
  simp only [Mat.rows, List.length_take]
  simp [Mat.rows] at hk
  omega

lemma Mat.takeRows_cols (A : Mat) (k : Nat) (C : Mat)
    (h : A.takeRows k = some C) (h0 : 0 < k) : C.cols = A.cols := by
  obtain ⟨hk, rfl⟩ := Mat.takeRows_eq_some A k C h
  obtain ⟨da⟩ := A
  cases da with
  | nil => simp [Mat.rows] at hk; omega
  | cons a l =>
    cases k with
    | zero => omega
    | succ n => simp [Mat.cols]

lemma Mat.takeRows_WF (A : Mat) (k : Nat) (C : Mat)
    (h : A.takeRows k = some C) (hA : A.WF) : C.WF := by
  obtain ⟨hk, hC⟩ := Mat.takeRows_eq_some A k C h
  intro r hr
  rw [hC] at hr
  simp only at hr
  have hmem : r ∈ A.data := List.mem_of_mem_take hr
  have hkpos : 0 < k := by
    rcases Nat.eq_zero_or_pos k with rfl | hp
    · simp at hr
    · exact hp
  rw [hA r hmem, ← Mat.takeRows_cols A k C h hkpos]

lemma Mat.transpose_rows (A : Mat) : A.transpose.rows = A.cols := by
  simp [Mat.transpose, Mat.rows]

lemma Mat.transpose_cols (A : Mat) (h : 0 < A.cols) : A.transpose.cols = A.rows := by
  unfold Mat.transpose
  obtain ⟨n, hn⟩ : ∃ n, A.cols = n + 1 := ⟨A.cols - 1, by omega⟩
  rw [hn, List.range_succ_eq_map]
  simp [Mat.cols, Mat.rows]

lemma Mat.transpose_WF (A : Mat) : A.transpose.WF := by
  intro r hr
  simp only [Mat.transpose, List.mem_map, List.mem_range] at hr
  obtain ⟨j, hj, rfl⟩ := hr
  rw [List.length_map, Mat.transpose_cols A (by omega)]
  rfl

lemma Mat.zeros_rows (m n : Nat) : (Mat.zeros m n).rows = m := by
  simp [Mat.zeros, Mat.rows]

lemma Mat.zeros_cols (m n : Nat) (h : 0 < m) : (Mat.zeros m n).cols = n := by
  obtain ⟨k, rfl⟩ : ∃ k, m = k + 1 := ⟨m - 1, by omega⟩
  simp [Mat.zeros, Mat.cols, List.replicate_succ]

lemma Mat.zeros_WF (m n : Nat) : (Mat.zeros m n).WF := by
  intro r hr
  simp only [Mat.zeros, List.mem_replicate] at hr
  rw [hr.2, List.length_replicate, Mat.zeros_cols m n (by omega)]

lemma GaLoreProjection.computeAll_nil (st : GaLoreProjection) (svd : Mat → Mat × Mat) :
    st.computeAll svd [] = some [] := rfl

lemma GaLoreProjection.computeAll_cons (st : GaLoreProjection) (svd : Mat → Mat × Mat)
    (g : Mat) (gs : List Mat) :
    st.computeAll svd (g :: gs) = (st.computeProjectionMatrices svd g).bind
      (fun pq => (st.computeAll svd gs).bind (fun rest => some (pq :: rest))) := rfl

lemma projPairs_nil_left (pqs : List (Mat × Mat)) : projPairs [] pqs = some [] := rfl

lemma projPairs_nil_right (g : Mat) (gs : List Mat) : projPairs (g :: gs) [] = some [] := rfl

lemma projPairs_cons_cons (g : Mat) (gs : List Mat) (pq : Mat × Mat)
    (pqs : List (Mat × Mat)) :
    projPairs (g :: gs) (pq :: pqs) = (GaLoreProjection.project g pq.1 pq.2).bind
      (fun r => (projPairs gs pqs).bind (fun rest => some (r :: rest))) := rfl

lemma backPairs_nil_left (pqs : List (Mat × Mat)) : backPairs [] pqs = some [] := rfl

lemma backPairs_nil_right (u : Mat) (us : List Mat) : backPairs (u :: us) [] = some [] := rfl

lemma backPairs_cons_cons (u : Mat) (us : List Mat) (pq : Mat × Mat)
    (pqs : List (Mat × Mat)) :
    backPairs (u :: us) (pq :: pqs) = (GaLoreProjection.projectBack u pq.1 pq.2).bind
      (fun r => (backPairs us pqs).bind (fun rest => some (r :: rest))) := rfl

lemma GaLoreProjection.projectGradient_eq (st : GaLoreProjection)
    (svd : Mat → Mat × Mat) (grads : List Mat) :
    st.projectGradient svd grads =
      if st.updateFreq = 0 then none
      else if (st.step + 1) % st.updateFreq = 0 ∨ st.projections = [] then
        (GaLoreProjection.computeAll { st with step := st.step + 1 } svd grads).bind
          (fun ps => (projPairs grads ps).bind
            (fun outs => some ({ st with step := st.step + 1, projections := ps }, outs)))
      else
        (projPairs grads st.projections).bind
          (fun outs => some ({ st with step := st.step + 1 }, outs)) := rfl

lemma GaLoreProjection.computeAll_char (st : GaLoreProjection) (svd : Mat → Mat × Mat) :
    ∀ (gs : List Mat) (ps : List (Mat × Mat)), st.computeAll svd gs = some ps →
      ps.length = gs.length ∧
      ∀ i, i < gs.length →
        st.computeProjectionMatrices svd (gs.getD i dMat) = some (ps.getD i (dMat, dMat)) := by
  intro gs
  induction gs with
  | nil =>
    intro ps h
    rw [GaLoreProjection.computeAll_nil, Option.some_inj] at h
    subst h
    exact ⟨rfl, fun i hi => by simp at hi⟩
  | cons g gs ih =>
    intro ps h
    rw [GaLoreProjection.computeAll_cons, Option.bind_eq_some] at h
    obtain ⟨pq, hpq, h⟩ := h
    rw [Option.bind_eq_some] at h
    obtain ⟨rest, hrest, h⟩ := h
    rw [Option.some_inj] at h
    subst h
    obtain ⟨hlen, hget⟩ := ih rest hrest
    refine ⟨by simp [hlen], ?_⟩
    intro i hi
    cases i with
    | zero => simpa using hpq
    | succ n =>
      simp only [List.getD_cons_succ]
      exact hget n (by simpa using hi)

lemma GaLoreProjection.computeAll_none (st : GaLoreProjection) (svd : Mat → Mat × Mat)
    (g : Mat) : ∀ gs : List Mat, g ∈ gs →
      st.computeProjectionMatrices svd g = none → st.computeAll svd gs = none := by
  intro gs
  induction gs with
  | nil => intro h; simp at h
  | cons a gs ih =>
    intro hmem hnone
    rcases List.mem_cons.mp hmem with rfl | hmem
    · simp [GaLoreProjection.computeAll, hnone]
    · cases hpq : st.computeProjectionMatrices svd a with
      | none => simp [GaLoreProjection.computeAll, hpq]
      | some pq => simp [GaLoreProjection.computeAll, hpq, ih hmem hnone]

lemma projPairs_char : ∀ (gs : List Mat) (pqs : List (Mat × Mat)) (out : List Mat),
    projPairs gs pqs = some out →
    out.length = min gs.length pqs.length ∧
    ∀ i, i < out.length →
      GaLoreProjection.project (gs.getD i dMat)
        (pqs.getD i (dMat, dMat)).1 (pqs.getD i (dMat, dMat)).2
        = some (out.getD i dMat) := by
  intro gs
  induction gs with
  | nil =>
    intro pqs out h
    rw [projPairs_nil_left, Option.some_inj] at h
    subst h
    exact ⟨by simp, fun i hi => by simp at hi⟩
  | cons g gs ih =>
    intro pqs out h
    cases pqs with
    | nil =>
      rw [projPairs_nil_right, Option.some_inj] at h
      subst h
      exact ⟨by simp, fun i hi => by simp at hi⟩
    | cons pq pqs =>
      rw [projPairs_cons_cons, Option.bind_eq_some] at h
      obtain ⟨r, hr, h⟩ := h
      rw [Option.bind_eq_some] at h
      obtain ⟨rest, hrest, h⟩ := h
      rw [Option.some_inj] at h
      subst h
      obtain ⟨hlen, hget⟩ := ih pqs rest hrest
      refine ⟨by simp [hlen]; omega, ?_⟩
      intro i hi
      cases i with
      | zero => simpa using hr
      | succ n =>
        simp only [List.getD_cons_succ]
        exact hget n (by simpa using hi)

lemma backPairs_char : ∀ (us : List Mat) (pqs : List (Mat × Mat)) (out : List Mat),
    backPairs us pqs = some out →
    out.length = min us.length pqs.length ∧
    ∀ i, i < out.length →
      GaLoreProjection.projectBack (us.getD i dMat)
        (pqs.getD i (dMat, dMat)).1 (pqs.getD i (dMat, dMat)).2
        = some (out.getD i dMat) := by
  intro us
  induction us with
  | nil =>
    intro pqs out h
    rw [backPairs_nil_left, Option.some_inj] at h
    subst h
    exact ⟨by simp, fun i hi => by simp at hi⟩
  | cons u us ih =>
    intro pqs out h
    cases pqs with
    | nil =>
      rw [backPairs_nil_right, Option.some_inj] at h
      subst h
      exact ⟨by simp, fun i hi => by simp at hi⟩
    | cons pq pqs =>
      rw [backPairs_cons_cons, Option.bind_eq_some] at h
      obtain ⟨r, hr, h⟩ := h
      rw [Option.bind_eq_some] at h
      obtain ⟨rest, hrest, h⟩ := h
      rw [Option.some_inj] at h
      subst h
      obtain ⟨hlen, hget⟩ := ih pqs rest hrest
      refine ⟨by simp [hlen]; omega, ?_⟩
      intro i hi
      cases i with
      | zero => simpa using hr
      | succ n =>
        simp only [List.getD_cons_succ]
        exact hget n (by simpa using hi)

/-- Full characterization of a successful `project_gradient` call: the step
counter advances by one, the configuration is untouched, the bases are
recomputed exactly when the incremented counter is divisible by
`update_freq` or the store is empty (and are untouched otherwise), and the
outputs are the zipped projections through the post-decision bases. -/
lemma GaLoreProjection.projectGradient_char (st : GaLoreProjection)
    (svd : Mat → Mat × Mat) (grads : List Mat) (st' : GaLoreProjection)
    (out : List Mat) (h : st.projectGradient svd grads = some (st', out)) :
    st.updateFreq ≠ 0 ∧
    st'.rank = st.rank ∧ st'.updateFreq = st.updateFreq ∧
    st'.emaDecay = st.emaDecay ∧ st'.step = st.step + 1 ∧
    (((st.step + 1) % st.updateFreq = 0 ∨ st.projections = []) →
        GaLoreProjection.computeAll { st with step := st.step + 1 } svd grads
          = some st'.projections) ∧
    (¬((st.step + 1) % st.updateFreq = 0 ∨ st.projections = []) →
        st'.projections = st.projections) ∧
    projPairs grads st'.projections = some out := by
  rw [GaLoreProjection.projectGradient_eq] at h
  by_cases hfreq : st.updateFreq = 0
  · rw [if_pos hfreq] at h
    exact absurd h (by simp)
  · rw [if_neg hfreq] at h
    by_cases hcond : (st.step + 1) % st.updateFreq = 0 ∨ st.projections = []
    · rw [if_pos hcond, Option.bind_eq_some] at h
      obtain ⟨ps, hps, h⟩ := h
      rw [Option.bind_eq_some] at h
      obtain ⟨outs, houts, h⟩ := h
      rw [Option.some_inj, Prod.mk.injEq] at h
      obtain ⟨h1, rfl⟩ := h
      subst h1
      exact ⟨hfreq, rfl, rfl, rfl, rfl, fun _ => by simpa using hps,
        fun hn => absurd hcond hn, houts⟩
    · rw [if_neg hcond, Option.bind_eq_some] at h
      obtain ⟨outs, houts, h⟩ := h
      rw [Option.some_inj, Prod.mk.injEq] at h
      obtain ⟨h1, rfl⟩ := h
      subst h1
      exact ⟨hfreq, rfl, rfl, rfl, rfl, fun hx => absurd hx hcond,
        fun _ => rfl, houts⟩

lemma Mat.takeCols_none (A : Mat) (k : Nat) (h : A.cols < k) : A.takeCols k = none := by
  unfold Mat.takeCols
  rw [if_neg (by omega)]

lemma GaLoreProjection.computeProjectionMatrices_eq (st : GaLoreProjection)
    (svd : Mat → Mat × Mat) (grad : Mat) :
    st.computeProjectionMatrices svd grad =
      ((svd grad).1.takeCols st.rank).bind (fun u =>
        ((svd grad).2.takeRows st.rank).bind (fun vt =>
          match st.projections.head? with
          | some pq => (st.emaUpdate pq.1 u).bind (fun p =>
              (st.emaUpdate pq.2 vt.transpose).bind (fun q => some (p, q)))
          | none => some (u, vt.transpose))) := rfl

lemma GaLoreProjection.computeProjectionMatrices_none (st : GaLoreProjection)
    (svd : Mat → Mat × Mat) (g : Mat) (hsvd : SvdSpec svd)
    (hr : 0 < g.rows) (hc : 0 < g.cols) (hlt : min g.rows g.cols < st.rank) :
    st.computeProjectionMatrices svd g = none := by
  rw [GaLoreProjection.computeProjectionMatrices_eq]
  have h1 : (svd g).1.cols = min g.rows g.cols := (hsvd g hr hc).1.2.1
  rw [Mat.takeCols_none _ _ (by omega)]
  rfl

lemma Adam.loopSlots_cons (a : Adam) (t : Nat) (s : ℚ → ℚ) (g : Mat) (gs : List Mat)
    (mm : Mat) (ms : List Mat) (vv : Mat) (vs : List Mat) :
    a.loopSlots t s (g :: gs) (mm :: ms) (vv :: vs) =
      (a.slotUpdate t s g mm vv).bind (fun r =>
        (a.loopSlots t s gs ms vs).bind (fun rest =>
          some (r.1 :: rest.1, r.2.1 :: rest.2.1, r.2.2 :: rest.2.2))) := rfl

lemma Adam.loopSlots_nil_grads (a : Adam) (t : Nat) (s : ℚ → ℚ)
    (ms vs : List Mat) : a.loopSlots t s [] ms vs = some (ms, vs, []) := rfl

lemma Adam.loopSlots_nil_m (a : Adam) (t : Nat) (s : ℚ → ℚ) (g : Mat)
    (gs vs : List Mat) : a.loopSlots t s (g :: gs) [] vs = some ([], vs, []) := rfl

lemma Adam.loopSlots_nil_v (a : Adam) (t : Nat) (s : ℚ → ℚ) (g : Mat) (gs : List Mat)
    (mm : Mat) (ms : List Mat) :
    a.loopSlots t s (g :: gs) (mm :: ms) [] = some (mm :: ms, [], []) := rfl

lemma Adam.loopSlots_char (a : Adam) (t : Nat) (s : ℚ → ℚ) :
    ∀ (gs ms vs ms' vs' outs : List Mat),
      a.loopSlots t s gs ms vs = some (ms', vs', outs) →
      outs.length = min gs.length (min ms.length vs.length) ∧
      ms'.length = ms.length ∧ vs'.length = vs.length ∧
      (∀ i, i < outs.length →
        a.slotUpdate t s (gs.getD i dMat) (ms.getD i dMat) (vs.getD i dMat)
          = some (ms'.getD i dMat, vs'.getD i dMat, outs.getD i dMat)) ∧
      (∀ i, outs.length ≤ i →
        ms'.getD i dMat = ms.getD i dMat ∧ vs'.getD i dMat = vs.getD i dMat) := by
  intro gs
  induction gs with
  | nil =>
    intro ms vs ms' vs' outs h
    rw [Adam.loopSlots_nil_grads, Option.some_inj] at h
    obtain ⟨rfl, rfl, rfl⟩ := h
    exact ⟨by simp, rfl, rfl, fun i hi => by simp at hi, fun i _ => ⟨rfl, rfl⟩⟩
  | cons g gs ih =>
    intro ms vs ms' vs' outs h
    cases ms with
    | nil =>
      rw [Adam.loopSlots_nil_m, Option.some_inj] at h
      obtain ⟨rfl, rfl, rfl⟩ := h
      exact ⟨by simp, rfl, rfl, fun i hi => by simp at hi, fun i _ => ⟨rfl, rfl⟩⟩
    | cons mm ms =>
      cases vs with
      | nil =>
        rw [Adam.loopSlots_nil_v, Option.some_inj] at h
        obtain ⟨rfl, rfl, rfl⟩ := h
        exact ⟨by simp, rfl, rfl, fun i hi => by simp at hi, fun i _ => ⟨rfl, rfl⟩⟩
      | cons vv vs =>
        rw [Adam.loopSlots_cons, Option.bind_eq_some] at h
        obtain ⟨r, hr, h⟩ := h
        rw [Option.bind_eq_some] at h
        obtain ⟨rest, hrest, h⟩ := h
        rw [Option.some_inj] at h
        simp only [Prod.mk.injEq] at h
        obtain ⟨h1, h2, h3⟩ := h
        subst h1; subst h2; subst h3
        obtain ⟨hlen, hm, hv, hget, hleft⟩ := ih ms vs rest.1 rest.2.1 rest.2.2 (by
          rw [hrest])
        refine ⟨by simp [hlen]; omega, by simp [hm], by simp [hv], ?_, ?_⟩
        · intro i hi
          cases i with
          | zero => simpa using hr
          | succ n =>
            simp only [List.getD_cons_succ]
            exact hget n (by simpa using hi)
        · intro i hi
          cases i with
          | zero => simp at hi
          | succ n =>
            simp only [List.getD_cons_succ]
            exact hleft n (by simpa using hi)

lemma Adam.computeUpdates_eq (a : Adam) (sqrtf : ℚ → ℚ) (grads : List Mat) :
    a.computeUpdates sqrtf grads =
      (a.loopSlots (a.t + 1) sqrtf grads
        (if a.m = [] then grads.map (fun g => Mat.zeros g.rows g.cols) else a.m)
        (if a.m = [] then grads.map (fun g => Mat.zeros g.rows g.cols) else a.v)).bind
        (fun r => some ({ a with m := r.1, v := r.2.1, t := a.t + 1 }, r.2.2)) := rfl

lemma svdOracle_spec : SvdSpec svdOracle := by
  intro g hr hc
  have hmin : 0 < min g.rows g.cols := by omega
  refine ⟨⟨?_, ?_, ?_⟩, ?_, ?_, ?_⟩
  · exact Mat.zeros_rows _ _
  · exact Mat.zeros_cols _ _ hr
  · exact Mat.zeros_WF _ _
  · exact Mat.zeros_rows _ _
  · exact Mat.zeros_cols _ _ hmin
  · exact Mat.zeros_WF _ _

/-- C1: the claim says each slot's bases are smoothed against that same
slot's own previous pair.  The code instead reads `self.projections.get(0)`
— slot 0's previous pair — for every slot.  Evaluation at a two-slot run
(`rank = 1`, `update_interval = 1`, `ema_decay = 1/2`, first-refresh
candidates `A0 = [[1]]`, `A1 = [[2]]`, second-refresh candidates
`B0 = [[3]]`, `B1 = [[4]]`): the code stores `[[5/2]]`
(`= 1/2·A0 + 1/2·B1`) as slot 1's row basis, while the claim's per-slot
smoothing — computed by `ema_update` on slot 1's own previous basis
`[[2]]` — yields `[[3]]`. -/
theorem C1_ema_blends_slot_zero_not_own_slot :
    (((GaLoreProjection.new 1 1 (1/2)).projectGradient svdToy
        [(⟨[[1]]⟩ : Mat), ⟨[[2]]⟩]).bind
      (fun r => r.1.projectGradient svdToy [(⟨[[3]]⟩ : Mat), ⟨[[4]]⟩])).map
        (fun r => r.1.projections.map (fun pq => pq.1)) =
      some [⟨[[2]]⟩, ⟨[[5/2]]⟩] ∧
    (GaLoreProjection.new 1 1 (1/2)).emaUpdate ⟨[[2]]⟩ ⟨[[4]]⟩ = some ⟨[[3]]⟩ ∧
    (⟨[[5/2]]⟩ : Mat) ≠ ⟨[[3]]⟩ := by
  exact ⟨by decide, by decide, by decide⟩

/-- C2 counterexample: with `update_interval = 2` the claim predicts the
bases stay bit-for-bit identical on call 2 (changes only on calls 1, 3, 5,
…), but the code refreshes on call 2 (`step_counter` is incremented before
the divisibility test, so refreshes fall on calls 1, k, 2k, …): starting
fresh with `ema_decay = 0`, after call 1 on gradient `[[1]]` the stored
pair is `([[1]], [[1]])`, and call 2 on gradient `[[2]]` replaces it with
`([[2]], [[2]])`. -/
theorem C2_counterexample_bases_change_on_call_two :
    (((GaLoreProjection.new 1 2 0).projectGradient svdToy [(⟨[[1]]⟩ : Mat)]).bind
      (fun r => r.1.projectGradient svdToy [(⟨[[2]]⟩ : Mat)])).map
        (fun r => r.1.projections) = some [(⟨[[2]]⟩, ⟨[[2]]⟩)] ∧
    ((GaLoreProjection.new 1 2 0).projectGradient svdToy [(⟨[[1]]⟩ : Mat)]).map
        (fun r => r.1.projections) = some [(⟨[[1]]⟩, ⟨[[1]]⟩)] ∧
    ([((⟨[[2]]⟩ : Mat), (⟨[[2]]⟩ : Mat))] : List (Mat × Mat)) ≠ [(⟨[[1]]⟩, ⟨[[1]]⟩)] := by
  exact ⟨by decide, by decide, by decide⟩

/-- C2 amended: on a successful `project_gradient` call the bases are
recomputed exactly when the incremented step counter is divisible by
`update_interval` or no bases are stored — with fixed nonempty slots, on
the calls numbered 1, k, 2k, 3k, … (1-indexed) — and on every other call
the stored bases remain bit-for-bit identical to the previous call's. -/
theorem C2_refresh_cadence (st : GaLoreProjection) (svd : Mat → Mat × Mat)
    (grads : List Mat) (st' : GaLoreProjection) (out : List Mat)
    (h : st.projectGradient svd grads = some (st', out)) :
    st'.step = st.step + 1 ∧
    (¬((st.step + 1) % st.updateFreq = 0 ∨ st.projections = []) →
      st'.projections = st.projections) ∧
    (((st.step + 1) % st.updateFreq = 0 ∨ st.projections = []) →
      GaLoreProjection.computeAll { st with step := st.step + 1 } svd grads
        = some st'.projections) := by
  obtain ⟨-, -, -, -, h5, h6, h7, -⟩ :=
    GaLoreProjection.projectGradient_char st svd grads st' out h
  exact ⟨h5, h7, h6⟩

/-- Witness for `C2_refresh_cadence`: a non-refresh call (counter 2,
interval 3) leaves the stored bases of a one-slot state untouched. -/
theorem C2_refresh_cadence_witness :
    (GaLoreProjection.mk 1 3 0 2 [((⟨[[1]]⟩ : Mat), ⟨[[1]]⟩)]).projections
      = (GaLoreProjection.mk 1 3 0 1 [((⟨[[1]]⟩ : Mat), ⟨[[1]]⟩)]).projections :=
  (C2_refresh_cadence (GaLoreProjection.mk 1 3 0 1 [((⟨[[1]]⟩ : Mat), ⟨[[1]]⟩)])
    svdToy [⟨[[1]]⟩] (GaLoreProjection.mk 1 3 0 2 [((⟨[[1]]⟩ : Mat), ⟨[[1]]⟩)])
    [⟨[[1]]⟩] (by decide)).2.1 (by decide)

/-- C3 counterexample: calling `project_update` on a freshly constructed
projector (no refresh ever happened) does not abort — it zips the updates
with the empty basis store and returns a result, the empty list. -/
theorem C3_counterexample_returns_result :
    (GaLoreProjection.new 2 3 (1/2)).projectUpdate [(⟨[[1, 2], [3, 4]]⟩ : Mat)]
        = some [] ∧
    (GaLoreProjection.new 2 3 (1/2)).projectUpdate [(⟨[[1, 2], [3, 4]]⟩ : Mat)]
        ≠ none := by
  exact ⟨by decide, by decide⟩

/-- C3 amended: calling `project_update` before any refresh silently
returns the empty list (every update is dropped by the zip with the empty
basis store); no error is raised. -/
theorem C3_uninitialized_projectUpdate_returns_empty (st : GaLoreProjection)
    (updates : List Mat) (h : st.projections = []) :
    st.projectUpdate updates = some [] := by
  unfold GaLoreProjection.projectUpdate
  rw [h]
  cases updates with
  | nil => exact backPairs_nil_left []
  | cons u us => exact backPairs_nil_right u us

/-- Witness for `C3_uninitialized_projectUpdate_returns_empty`. -/
theorem C3_uninitialized_projectUpdate_witness :
    (GaLoreProjection.new 1 1 0).projectUpdate [(⟨[[5]]⟩ : Mat)] = some [] :=
  C3_uninitialized_projectUpdate_returns_empty (GaLoreProjection.new 1 1 0)
    [⟨[[5]]⟩] rfl

/-- C6: `GaLoreOptimizer::step` is exactly the three-stage composition —
project the gradients, delegate to the base optimizer, project the updates
back — introducing no state of its own and propagating a failure of either
sub-stage unchanged (a `none` from a stage is the `none` of the whole
step, and on success the new state is exactly the pair of the two
sub-states). -/
theorem C6_step_is_pure_orchestration :
    ∀ (σ : Type) (o : GaLoreOptimizer σ)
      (compute : σ → List Mat → Option (σ × List Mat))
      (svd : Mat → Mat × Mat) (grads : List Mat),
      o.step compute svd grads =
        match o.galore.projectGradient svd grads with
        | none => none
        | some r1 =>
          match compute o.baseOptimizer r1.2 with
          | none => none
          | some r2 =>
            match r1.1.projectUpdate r2.2 with
            | none => none
            | some outs => some ({ baseOptimizer := r2.1, galore := r1.1 }, outs) := by
  intro σ o compute svd grads
  have hstep : o.step compute svd grads = (o.galore.projectGradient svd grads).bind
      (fun r1 => (compute o.baseOptimizer r1.2).bind
        (fun r2 => (r1.1.projectUpdate r2.2).bind
          (fun outs => some (({ baseOptimizer := r2.1, galore := r1.1 } :
            GaLoreOptimizer σ), outs)))) := rfl
  cases h1 : o.galore.projectGradient svd grads with
  | none => simp [hstep, h1]
  | some r1 =>
    cases h2 : compute o.baseOptimizer r1.2 with
    | none => simp [hstep, h1, h2]
    | some r2 =>
      cases h3 : r1.1.projectUpdate r2.2 with
      | none => simp [hstep, h1, h2, h3]
      | some outs => simp [hstep, h1, h2, h3]

/-- C8: `GaLoreProjection::new` stores any configuration unchecked (no
rejection at construction), and an invalid configuration fails at first
use instead of being clamped: with `update_interval = 0` every
`project_gradient` call panics on the remainder-by-zero (modelled `none`),
and with `rank` exceeding a slot's smaller dimension the first call's
refresh panics inside the truncation slice (modelled `none`). -/
theorem C8_invalid_config_fails_at_first_use :
    (∀ (rank freq : Nat) (d : ℚ),
      (GaLoreProjection.new rank freq d).step = 0 ∧
      (GaLoreProjection.new rank freq d).projections = []) ∧
    (∀ (st : GaLoreProjection) (svd : Mat → Mat × Mat) (grads : List Mat),
      st.updateFreq = 0 → st.projectGradient svd grads = none) ∧
    (∀ (st : GaLoreProjection) (svd : Mat → Mat × Mat) (grads : List Mat) (g : Mat),
      SvdSpec svd → st.projections = [] → g ∈ grads → 0 < g.rows → 0 < g.cols →
      min g.rows g.cols < st.rank →
      st.projectGradient svd grads = none) := by
  refine ⟨fun rank freq d => ⟨rfl, rfl⟩, ?_, ?_⟩
  · intro st svd grads h
    rw [GaLoreProjection.projectGradient_eq, if_pos h]
  · intro st svd grads g hsvd hemp hmem hr hc hlt
    by_cases hfreq : st.updateFreq = 0
    · rw [GaLoreProjection.projectGradient_eq, if_pos hfreq]
    · rw [GaLoreProjection.projectGradient_eq, if_neg hfreq,
        if_pos (Or.inr hemp),
        GaLoreProjection.computeAll_none { st with step := st.step + 1 } svd g grads hmem
          (GaLoreProjection.computeProjectionMatrices_none
            { st with step := st.step + 1 } svd g hsvd hr hc hlt)]
      rfl

/-- Witness for `C8_invalid_config_fails_at_first_use`: a projector with
`update_interval = 0` fails on its first call, and one with `rank = 2`
over a 1×1 slot fails on its first call. -/
theorem C8_invalid_config_witness :
    (GaLoreProjection.new 1 0 0).projectGradient svdToy [] = none ∧
    (GaLoreProjection.new 2 1 0).projectGradient svdOracle [(⟨[[1]]⟩ : Mat)] = none :=
  ⟨C8_invalid_config_fails_at_first_use.2.1 (GaLoreProjection.new 1 0 0) svdToy [] rfl,
   C8_invalid_config_fails_at_first_use.2.2 (GaLoreProjection.new 2 1 0) svdOracle
     [⟨[[1]]⟩] ⟨[[1]]⟩ svdOracle_spec rfl (by decide) (by decide) (by decide) (by decide)⟩

/-- C9: none of the three list-consuming operations validates that the
input length matches the stored per-slot state; inputs are paired with
state by zipping, so on success the returned list has the shorter of the
two lengths and the excess entries are silently dropped. -/
theorem C9_silent_length_mismatch :
    (∀ (st : GaLoreProjection) (svd : Mat → Mat × Mat) (grads : List Mat)
        (st' : GaLoreProjection) (out : List Mat),
      st.projections ≠ [] → (st.step + 1) % st.updateFreq ≠ 0 →
      st.projectGradient svd grads = some (st', out) →
      out.length = min grads.length st.projections.length) ∧
    (∀ (st : GaLoreProjection) (updates out : List Mat),
      st.projectUpdate updates = some out →
      out.length = min updates.length st.projections.length) ∧
    (∀ (a : Adam) (sqrtf : ℚ → ℚ) (grads : List Mat) (a' : Adam) (out : List Mat),
      a.m ≠ [] → a.computeUpdates sqrtf grads = some (a', out) →
      out.length = min grads.length (min a.m.length a.v.length)) := by
  refine ⟨?_, ?_, ?_⟩
  · intro st svd grads st' out hne hmod h
    obtain ⟨-, -, -, -, -, -, hkeep, hpairs⟩ :=
      GaLoreProjection.projectGradient_char st svd grads st' out h
    have hkeep' := hkeep (by
      rintro (hx | hx)
      · exact hmod hx
      · exact hne hx)
    rw [hkeep'] at hpairs
    exact (projPairs_char grads st.projections out hpairs).1
  · intro st updates out h
    exact (backPairs_char updates st.projections out h).1
  · intro a sqrtf grads a' out hne h
    rw [Adam.computeUpdates_eq, if_neg hne, if_neg hne, Option.bind_eq_some] at h
    obtain ⟨r, hr, h⟩ := h
    rw [Option.some_inj, Prod.mk.injEq] at h
    obtain ⟨-, rfl⟩ := h
    exact (Adam.loopSlots_char a (a.t + 1) sqrtf grads a.m a.v r.1 r.2.1 r.2.2
      (by rw [hr])).1

/-- Witness for `C9_silent_length_mismatch`: two updates zipped against a
single stored basis pair produce one output (the second update is
dropped), with no error. -/
theorem C9_silent_length_mismatch_witness :
    ([(⟨[[2]]⟩ : Mat)] : List Mat).length =
      min ([(⟨[[2]]⟩ : Mat), ⟨[[3]]⟩] : List Mat).length
        (GaLoreProjection.mk 1 1 0 1 [((⟨[[1]]⟩ : Mat), ⟨[[1]]⟩)]).projections.length :=
  C9_silent_length_mismatch.2.1 (GaLoreProjection.mk 1 1 0 1 [(⟨[[1]]⟩, ⟨[[1]]⟩)])
    [⟨[[2]]⟩, ⟨[[3]]⟩] [⟨[[2]]⟩] (by decide)

/-- C10: from equal projector/optimizer states and equal gradient lists,
`step`, `project_gradient` and `project_update` produce equal outputs and
equal successor states (the per-slot parallel map is modelled by its
order-preserving sequential semantics, which rayon's indexed collect
guarantees); moreover `project_update`'s i-th output is exactly the i-th
slot's back-projection, i.e. results sit in original slot order. -/
theorem C10_determinism_and_slot_order :
    (∀ (σ : Type) (o1 o2 : GaLoreOptimizer σ)
        (compute : σ → List Mat → Option (σ × List Mat))
        (svd : Mat → Mat × Mat) (g1 g2 : List Mat),
      o1 = o2 → g1 = g2 →
      o1.step compute svd g1 = o2.step compute svd g2 ∧
      o1.galore.projectGradient svd g1 = o2.galore.projectGradient svd g2 ∧
      o1.galore.projectUpdate g1 = o2.galore.projectUpdate g2) ∧
    (∀ (st : GaLoreProjection) (updates out : List Mat),
      st.projectUpdate updates = some out →
      ∀ i, i < out.length →
        GaLoreProjection.projectBack (updates.getD i dMat)
          (st.projections.getD i (dMat, dMat)).1
          (st.projections.getD i (dMat, dMat)).2 = some (out.getD i dMat)) := by
  refine ⟨?_, ?_⟩
  · intro σ o1 o2 compute svd g1 g2 ho hg
    subst ho; subst hg
    exact ⟨rfl, rfl, rfl⟩
  · intro st updates out h
    exact (backPairs_char updates st.projections out h).2

/-- Witness for `C10_determinism_and_slot_order`: slot 0's output of a
concrete `project_update` call is slot 0's own back-projection. -/
theorem C10_determinism_witness :
    GaLoreProjection.projectBack (⟨[[2]]⟩ : Mat) (⟨[[1]]⟩ : Mat) ⟨[[1]]⟩
      = some ⟨[[2]]⟩ :=
  C10_determinism_and_slot_order.2 (GaLoreProjection.mk 1 1 0 1 [(⟨[[1]]⟩, ⟨[[1]]⟩)])
    [⟨[[2]]⟩] [⟨[[2]]⟩] (by decide) 0 (by decide)

lemma GaLoreProjection.emaUpdate_shape (st : GaLoreProjection) (old cand p : Mat)
    (hold : old.WF) (hcand : cand.WF) (h : st.emaUpdate old cand = some p) :
    p.rows = cand.rows ∧ p.cols = cand.cols ∧ p.WF := by
  unfold GaLoreProjection.emaUpdate at h
  have h1 := Mat.ewise_eq_some _ _ _ _ h
  have hrows := Mat.ewise_rows _ _ _ _ h
  have hcols := Mat.ewise_cols _ _ _ _ h
  have hWF := Mat.ewise_WF _ _ _ _ (Mat.smul_WF _ _ hold) (Mat.smul_WF _ _ hcand) h
  rw [Mat.smul_rows] at hrows
  rw [Mat.smul_cols] at hcols
  obtain ⟨he1, he2, -⟩ := h1
  rw [Mat.smul_rows, Mat.smul_rows] at he1
  rw [Mat.smul_cols, Mat.smul_cols] at he2
  exact ⟨by omega, by omega, hWF⟩

lemma GaLoreProjection.computeProjectionMatrices_shape (st : GaLoreProjection)
    (svd : Mat → Mat × Mat) (g p q : Mat)
    (hsvd : SvdSpec svd) (hr : 0 < g.rows) (hc : 0 < g.cols)
    (hrk1 : st.rank ≤ g.rows) (hrk2 : st.rank ≤ g.cols) (hrk0 : 0 < st.rank)
    (hhead : ∀ pq0 : Mat × Mat, st.projections.head? = some pq0 → pq0.1.WF ∧ pq0.2.WF)
    (h : st.computeProjectionMatrices svd g = some (p, q)) :
    (p.rows = g.rows ∧ p.cols = st.rank ∧ p.WF) ∧
    (q.rows = g.cols ∧ q.cols = st.rank ∧ q.WF) := by
  obtain ⟨hu, humin, huWF⟩ := (hsvd g hr hc).1
  obtain ⟨hvmin, hv, hvWF⟩ := (hsvd g hr hc).2
  rw [GaLoreProjection.computeProjectionMatrices_eq, Option.bind_eq_some] at h
  obtain ⟨u, hu1, h⟩ := h
  rw [Option.bind_eq_some] at h
  obtain ⟨vt, hvt1, h⟩ := h
  have hurows : u.rows = g.rows := by rw [Mat.takeCols_rows _ _ _ hu1, hu]
  have hucols : u.cols = st.rank :=
    Mat.takeCols_cols _ _ _ hu1 (by rw [hu]; exact hr)
  have huWF' : u.WF := Mat.takeCols_WF _ _ _ hu1 huWF
  have hvtrows : vt.rows = st.rank := Mat.takeRows_rows _ _ _ hvt1
  have hvtcols : vt.cols = g.cols := by
    rw [Mat.takeRows_cols _ _ _ hvt1 hrk0, hv]
  have hvtWF : vt.WF := Mat.takeRows_WF _ _ _ hvt1 hvWF
  have htr : vt.transpose.rows = g.cols := by rw [Mat.transpose_rows, hvtcols]
  have htc : vt.transpose.cols = st.rank := by
    rw [Mat.transpose_cols vt (by omega), hvtrows]
  have htWF : vt.transpose.WF := Mat.transpose_WF vt
  cases hh : st.projections.head? with
  | none =>
    rw [hh] at h
    replace h : some (u, vt.transpose) = some (p, q) := h
    rw [Option.some_inj, Prod.mk.injEq] at h
    obtain ⟨rfl, rfl⟩ := h
    exact ⟨⟨hurows, hucols, huWF'⟩, htr, htc, htWF⟩
  | some pq0 =>
    rw [hh] at h
    replace h : (st.emaUpdate pq0.1 u).bind (fun p1 =>
        (st.emaUpdate pq0.2 vt.transpose).bind (fun q1 => some (p1, q1)))
        = some (p, q) := h
    rw [Option.bind_eq_some] at h
    obtain ⟨p1, hp1, h⟩ := h
    rw [Option.bind_eq_some] at h
    obtain ⟨q1, hq1, h⟩ := h
    rw [Option.some_inj, Prod.mk.injEq] at h
    obtain ⟨rfl, rfl⟩ := h
    obtain ⟨hw1, hw2⟩ := hhead pq0 hh
    obtain ⟨ha1, ha2, ha3⟩ := GaLoreProjection.emaUpdate_shape st pq0.1 u p1 hw1 huWF' hp1
    obtain ⟨hb1, hb2, hb3⟩ :=
      GaLoreProjection.emaUpdate_shape st pq0.2 vt.transpose q1 hw2 htWF hq1
    exact ⟨⟨by omega, by omega, ha3⟩, by omega, by omega, hb3⟩

lemma GaLoreProjection.project_shape (g p q o : Mat) (r : Nat)
    (hgr : 0 < g.rows) (hpc : p.cols = r) (hqc : q.cols = r) (hr0 : 0 < r)
    (h : GaLoreProjection.project g p q = some o) :
    o.rows = r ∧ o.cols = r ∧ o.WF := by
  replace h : (g.dot q).bind (fun gq => p.transpose.dot gq) = some o := h
  rw [Option.bind_eq_some] at h
  obtain ⟨gq, hgq, h⟩ := h
  have h1 : o.rows = r := by
    rw [Mat.dot_rows _ _ _ h, Mat.transpose_rows, hpc]
  have hgqc : gq.cols = r := by rw [Mat.dot_cols _ _ _ hgq hgr, hqc]
  have h2 : o.cols = r := by
    rw [Mat.dot_cols _ _ _ h (by rw [Mat.transpose_rows, hpc]; omega), hgqc]
  exact ⟨h1, h2, Mat.dot_WF _ _ _ h⟩

lemma GaLoreProjection.projectBack_shape (u p q o : Mat) (r : Nat)
    (hur : u.rows = r) (huc : 0 < u.cols) (hr0 : 0 < r) (hpr : 0 < p.rows)
    (h : GaLoreProjection.projectBack u p q = some o) :
    o.rows = p.rows ∧ o.cols = q.rows ∧ o.WF := by
  replace h : (u.dot q.transpose).bind (fun uq => p.dot uq) = some o := h
  rw [Option.bind_eq_some] at h
  obtain ⟨uq, huq, h⟩ := h
  have h1 : o.rows = p.rows := Mat.dot_rows _ _ _ h
  have hqc : u.cols = q.cols := by
    have := (Mat.dot_eq_some _ _ _ huq).1
    rw [Mat.transpose_rows] at this
    exact this
  have huqc : uq.cols = q.rows := by
    rw [Mat.dot_cols _ _ _ huq (by omega), Mat.transpose_cols q (by omega)]
  have h2 : o.cols = q.rows := by
    rw [Mat.dot_cols _ _ _ h hpr, huqc]
  exact ⟨h1, h2, Mat.dot_WF _ _ _ h⟩

lemma getD_map_zeros (grads : List Mat) (i : Nat) (hi : i < grads.length) :
    (grads.map (fun g => Mat.zeros g.rows g.cols)).getD i dMat
      = Mat.zeros (grads.getD i dMat).rows (grads.getD i dMat).cols := by
  rw [List.getD_eq_get _ _ (by simpa using hi), List.getD_eq_get _ _ hi, List.get_map]

lemma GaLoreProjection.refresh_shapes (st : GaLoreProjection) (svd : Mat → Mat × Mat)
    (grads : List Mat) (ps : List (Mat × Mat))
    (hsvd : SvdSpec svd) (hg : GradsOK st.rank grads) (hrk0 : 0 < st.rank)
    (hhead : ∀ pq0 : Mat × Mat, st.projections.head? = some pq0 → pq0.1.WF ∧ pq0.2.WF)
    (hca : st.computeAll svd grads = some ps) :
    ps.length = grads.length ∧
    ∀ i, i < grads.length →
      ((ps.getD i (dMat, dMat)).1.rows = (grads.getD i dMat).rows ∧
       (ps.getD i (dMat, dMat)).1.cols = st.rank ∧ (ps.getD i (dMat, dMat)).1.WF) ∧
      ((ps.getD i (dMat, dMat)).2.rows = (grads.getD i dMat).cols ∧
       (ps.getD i (dMat, dMat)).2.cols = st.rank ∧ (ps.getD i (dMat, dMat)).2.WF) := by
  obtain ⟨hlen, hget⟩ := GaLoreProjection.computeAll_char st svd grads ps hca
  refine ⟨hlen, fun i hi => ?_⟩
  have hmem : grads.getD i dMat ∈ grads := by
    rw [List.getD_eq_get _ _ hi]
    exact List.get_mem _ _ _
  obtain ⟨hWF, hr, hc, hr1, hr2⟩ := hg _ hmem
  exact GaLoreProjection.computeProjectionMatrices_shape st svd _ _ _ hsvd hr hc
    hr1 hr2 hrk0 hhead (hget i hi)

lemma GaLoreProjection.projectGradient_sound (st : GaLoreProjection)
    (svd : Mat → Mat × Mat) (grads : List Mat) (st' : GaLoreProjection)
    (out : List Mat)
    (hsvd : SvdSpec svd) (hg : GradsOK st.rank grads) (hst : StateOK st)
    (hrk0 : 0 < st.rank)
    (h : st.projectGradient svd grads = some (st', out)) :
    StateOK st' ∧
    out.length = min grads.length st'.projections.length ∧
    (∀ i, i < out.length →
      GaLoreProjection.project (grads.getD i dMat)
        (st'.projections.getD i (dMat, dMat)).1
        (st'.projections.getD i (dMat, dMat)).2 = some (out.getD i dMat)) ∧
    (∀ r ∈ out, r.rows = st.rank ∧ r.cols = st.rank) ∧
    (((st.step + 1) % st.updateFreq = 0 ∨ st.projections = []) →
      st'.projections.length = grads.length ∧
      ∀ i, i < grads.length →
        (st'.projections.getD i (dMat, dMat)).1.rows = (grads.getD i dMat).rows ∧
        (st'.projections.getD i (dMat, dMat)).2.rows = (grads.getD i dMat).cols) ∧
    (¬((st.step + 1) % st.updateFreq = 0 ∨ st.projections = []) →
      st'.projections = st.projections) := by
  obtain ⟨hfreq, hrank, hfr, hema, hstep, hrefresh, hkeep, hpairs⟩ :=
    GaLoreProjection.projectGradient_char st svd grads st' out h
  obtain ⟨hlen, hgetp⟩ := projPairs_char grads st'.projections out hpairs
  have hhead : ∀ pq0 : Mat × Mat,
      ({ st with step := st.step + 1 } : GaLoreProjection).projections.head? = some pq0 →
      pq0.1.WF ∧ pq0.2.WF := by
    intro pq0 hh
    have hmem : pq0 ∈ st.projections := List.mem_of_mem_head? hh
    exact ⟨(hst pq0 hmem).1.1, (hst pq0 hmem).2.1⟩
  have hstOK' : StateOK st' := by
    by_cases hcond : (st.step + 1) % st.updateFreq = 0 ∨ st.projections = []
    · obtain ⟨hplen, hps⟩ := GaLoreProjection.refresh_shapes
        { st with step := st.step + 1 } svd grads st'.projections hsvd hg hrk0 hhead
        (hrefresh hcond)
      intro pq hpq
      obtain ⟨⟨i, hi⟩, hget⟩ := List.mem_iff_get.mp hpq
      have hig : i < grads.length := by omega
      have hgd : st'.projections.getD i (dMat, dMat) = pq := by
        rw [List.getD_eq_get _ _ hi]
        exact hget
      have hps' := hps i hig
      rw [hgd] at hps'
      have hgmem : grads.getD i dMat ∈ grads := by
        rw [List.getD_eq_get _ _ hig]
        exact List.get_mem _ _ _
      obtain ⟨-, hgr, hgc, -, -⟩ := hg _ hgmem
      refine ⟨⟨hps'.1.2.2, by rw [hrank]; exact hps'.1.2.1, by omega⟩,
        hps'.2.2.2, by rw [hrank]; exact hps'.2.2.1, by omega⟩
    · intro pq hpq
      rw [hkeep hcond] at hpq
      obtain ⟨⟨hw1, hc1, hr1⟩, hw2, hc2, hr2⟩ := hst pq hpq
      exact ⟨⟨hw1, by rw [hrank]; exact hc1, hr1⟩, hw2, by rw [hrank]; exact hc2, hr2⟩
  have houts : ∀ r ∈ out, r.rows = st.rank ∧ r.cols = st.rank := by
    intro r hr
    obtain ⟨⟨i, hi⟩, hget⟩ := List.mem_iff_get.mp hr
    have hig : i < grads.length := by omega
    have hip : i < st'.projections.length := by omega
    have hproj := hgetp i hi
    have hpq : st'.projections.getD i (dMat, dMat) ∈ st'.projections := by
      rw [List.getD_eq_get _ _ hip]
      exact List.get_mem _ _ _
    obtain ⟨⟨hw1, hc1, hr1⟩, hw2, hc2, hr2⟩ := hstOK' _ hpq
    have hgmem : grads.getD i dMat ∈ grads := by
      rw [List.getD_eq_get _ _ hig]
      exact List.get_mem _ _ _
    obtain ⟨-, hgr, -, -, -⟩ := hg _ hgmem
    have hout : out.getD i dMat = r := by
      rw [List.getD_eq_get _ _ hi]
      exact hget
    rw [hout] at hproj
    have := GaLoreProjection.project_shape _ _ _ _ st.rank hgr
      (by rw [hc1, hrank]) (by rw [hc2, hrank]) hrk0 hproj
    exact ⟨this.1, this.2.1⟩
  refine ⟨hstOK', hlen, hgetp, houts, ?_, hkeep⟩
  intro hcond
  obtain ⟨hplen, hps⟩ := GaLoreProjection.refresh_shapes
    { st with step := st.step + 1 } svd grads st'.projections hsvd hg hrk0 hhead
    (hrefresh hcond)
  exact ⟨hplen, fun i hi => ⟨(hps i hi).1.1, (hps i hi).2.1⟩⟩

/-- C4: on a successful `project_gradient` call, the i-th output is
exactly `row_basis^T · (gradient · col_basis)` computed with the i-th
slot's bases as current after the refresh decision, and every output has
shape `(rank, rank)` — independent of the slots' full shapes — whenever
the configuration is valid (`rank ≤ min(rows, cols)` for every slot,
positive dimensions, rectangular inputs, well-shaped stored bases, and the
library SVD shape contract). -/
theorem C4_reduced_tensor_shape (st : GaLoreProjection) (svd : Mat → Mat × Mat)
    (grads : List Mat) (st' : GaLoreProjection) (out : List Mat)
    (hsvd : SvdSpec svd) (hg : GradsOK st.rank grads) (hst : StateOK st)
    (hrk0 : 0 < st.rank)
    (h : st.projectGradient svd grads = some (st', out)) :
    (∀ i, i < out.length →
      GaLoreProjection.project (grads.getD i dMat)
        (st'.projections.getD i (dMat, dMat)).1
        (st'.projections.getD i (dMat, dMat)).2 = some (out.getD i dMat)) ∧
    (∀ r ∈ out, r.rows = st.rank ∧ r.cols = st.rank) := by
  obtain ⟨-, -, hchar, houts, -, -⟩ :=
    GaLoreProjection.projectGradient_sound st svd grads st' out hsvd hg hst hrk0 h
  exact ⟨hchar, houts⟩

/-- Witness for `C4_reduced_tensor_shape` at a 1×1 slot with rank 1. -/
theorem C4_reduced_tensor_shape_witness :
    (⟨[[0]]⟩ : Mat).rows = (GaLoreProjection.new 1 1 0).rank ∧
    (⟨[[0]]⟩ : Mat).cols = (GaLoreProjection.new 1 1 0).rank :=
  (C4_reduced_tensor_shape (GaLoreProjection.new 1 1 0) svdOracle [⟨[[2]]⟩]
    (GaLoreProjection.mk 1 1 0 1 [(⟨[[0]]⟩, ⟨[[0]]⟩)]) [⟨[[0]]⟩]
    svdOracle_spec (by decide) (by decide) (by decide) (by decide)).2
    ⟨[[0]]⟩ (by decide)

/-- C5: on a successful `project_update` call, the i-th output is exactly
`row_basis · (update · col_basis^T)` with the i-th slot's bases, and for a
`project_update` immediately following a `project_gradient` on a gradient
list of the slots' fixed shapes (no refresh in between), the returned
tensors' shapes exactly match the input gradients' shapes. -/
theorem C5_round_trip_shapes (st : GaLoreProjection) (svd : Mat → Mat × Mat)
    (grads : List Mat) (st' : GaLoreProjection) (red out : List Mat)
    (hsvd : SvdSpec svd) (hg : GradsOK st.rank grads) (hst : StateOK st)
    (hmatch : MatchOK st grads) (hrk0 : 0 < st.rank)
    (hlen : st.projections = [] ∨ st.projections.length = grads.length)
    (h1 : st.projectGradient svd grads = some (st', red))
    (h2 : st'.projectUpdate red = some out) :
    (∀ i, i < out.length →
      GaLoreProjection.projectBack (red.getD i dMat)
        (st'.projections.getD i (dMat, dMat)).1
        (st'.projections.getD i (dMat, dMat)).2 = some (out.getD i dMat)) ∧
    List.Forall₂ (fun (u g : Mat) => u.rows = g.rows ∧ u.cols = g.cols) out grads := by
  obtain ⟨hstOK', hrlen, -, hrshapes, hrefCl, hkeep⟩ :=
    GaLoreProjection.projectGradient_sound st svd grads st' red hsvd hg hst hrk0 h1
  replace h2 : backPairs red st'.projections = some out := h2
  obtain ⟨holen, hoget⟩ := backPairs_char red st'.projections out h2
  have hmside : st'.projections.length = grads.length ∧
      ∀ i, i < grads.length →
        (st'.projections.getD i (dMat, dMat)).1.rows = (grads.getD i dMat).rows ∧
        (st'.projections.getD i (dMat, dMat)).2.rows = (grads.getD i dMat).cols := by
    by_cases hcond : (st.step + 1) % st.updateFreq = 0 ∨ st.projections = []
    · exact hrefCl hcond
    · have hk := hkeep hcond
      have hne : st.projections ≠ [] := fun hx => hcond (Or.inr hx)
      have hlen' : st.projections.length = grads.length := hlen.resolve_left hne
      refine ⟨by rw [hk, hlen'], ?_⟩
      intro i hi
      have hip : i < st.projections.length := by omega
      have hzm : (grads.getD i dMat, st.projections.getD i (dMat, dMat))
          ∈ grads.zip st.projections := by
        have hiz : i < (grads.zip st.projections).length := by
          rw [List.length_zip]; omega
        have : (grads.zip st.projections).getD i (dMat, (dMat, dMat))
            = (grads.getD i dMat, st.projections.getD i (dMat, dMat)) := by
          rw [List.getD_eq_get _ _ hiz, List.getD_eq_get _ _ hi,
            List.getD_eq_get _ _ hip]
          exact List.get_zip
        rw [← this, List.getD_eq_get _ _ hiz]
        exact List.get_mem _ _ _
      have hm := hmatch _ hzm
      rw [hk]
      exact hm
  have hout_len : out.length = grads.length := by
    rw [holen, hrlen, hmside.1]
    omega
  refine ⟨hoget, ?_⟩
  rw [List.forall₂_iff_get]
  refine ⟨by omega, ?_⟩
  intro i h1i h2i
  have hio : i < out.length := h1i
  have hig : i < grads.length := h2i
  have hir : i < red.length := by omega
  have hproj := hoget i hio
  have hredmem : red.getD i dMat ∈ red := by
    rw [List.getD_eq_get _ _ hir]
    exact List.get_mem _ _ _
  obtain ⟨hur, huc⟩ := hrshapes _ hredmem
  obtain ⟨hp_r, hq_r⟩ := hmside.2 i hig
  have hgmem : grads.getD i dMat ∈ grads := by
    rw [List.getD_eq_get _ _ hig]
    exact List.get_mem _ _ _
  obtain ⟨-, hgr, hgc, -, -⟩ := hg _ hgmem
  have hshape := GaLoreProjection.projectBack_shape _ _ _ _ st.rank hur
    (by omega) hrk0 (by omega) hproj
  constructor
  · rw [List.get_eq_getElem, List.get_eq_getElem, ← List.getD_eq_getElem _ dMat hio,
      ← List.getD_eq_getElem _ dMat hig, hshape.1, hp_r]
  · rw [List.get_eq_getElem, List.get_eq_getElem, ← List.getD_eq_getElem _ dMat hio,
      ← List.getD_eq_getElem _ dMat hig, hshape.2.1, hq_r]

/-- Witness for `C5_round_trip_shapes` at a 1×1 slot with rank 1. -/
theorem C5_round_trip_shapes_witness :
    List.Forall₂ (fun (u g : Mat) => u.rows = g.rows ∧ u.cols = g.cols)
      [(⟨[[0]]⟩ : Mat)] [(⟨[[2]]⟩ : Mat)] :=
  (C5_round_trip_shapes (GaLoreProjection.new 1 1 0) svdOracle [⟨[[2]]⟩]
    (GaLoreProjection.mk 1 1 0 1 [(⟨[[0]]⟩, ⟨[[0]]⟩)]) [⟨[[0]]⟩] [⟨[[0]]⟩]
    svdOracle_spec (by decide) (by decide) (by decide) (by decide)
    (Or.inl rfl) (by decide) (by decide)).2

/-- C7: on every successful `compute_updates` call the shared step `t`
advances by exactly one; when the first-moment store is empty (as on the
first call) both moment stores are lazily zero-initialized at the
gradients' shapes and every slot is processed; otherwise every zipped slot
is processed against its stored moments.  Each processed slot's new
moments and returned update are produced by the per-slot closure
`Adam.slotUpdate`, i.e. elementwise `m ← β1·m + (1−β1)·g`,
`v ← β2·v + (1−β2)·g²`, `m̂ = m/(1−β1^t)`, `v̂ = v/(1−β2^t)`,
`update = −lr·m̂/(sqrt(v̂)+ε)`. -/
theorem C7_adam_update_formulas (a : Adam) (sqrtf : ℚ → ℚ) (grads : List Mat)
    (a' : Adam) (out : List Mat)
    (h : a.computeUpdates sqrtf grads = some (a', out)) :
    a'.t = a.t + 1 ∧
    (a.m = [] →
      out.length = grads.length ∧ a'.m.length = grads.length ∧
      a'.v.length = grads.length ∧
      ∀ i, i < out.length →
        a.slotUpdate (a.t + 1) sqrtf (grads.getD i dMat)
          (Mat.zeros (grads.getD i dMat).rows (grads.getD i dMat).cols)
          (Mat.zeros (grads.getD i dMat).rows (grads.getD i dMat).cols)
          = some (a'.m.getD i dMat, a'.v.getD i dMat, out.getD i dMat)) ∧
    (a.m ≠ [] →
      out.length = min grads.length (min a.m.length a.v.length) ∧
      a'.m.length = a.m.length ∧ a'.v.length = a.v.length ∧
      ∀ i, i < out.length →
        a.slotUpdate (a.t + 1) sqrtf (grads.getD i dMat)
          (a.m.getD i dMat) (a.v.getD i dMat)
          = some (a'.m.getD i dMat, a'.v.getD i dMat, out.getD i dMat)) := by
  rw [Adam.computeUpdates_eq, Option.bind_eq_some] at h
  obtain ⟨r, hr, h⟩ := h
  rw [Option.some_inj, Prod.mk.injEq] at h
  obtain ⟨ha', rfl⟩ := h
  subst ha'
  refine ⟨rfl, ?_, ?_⟩
  · intro hm
    rw [if_pos hm, if_pos hm] at hr
    obtain ⟨hlen, hm2, hv2, hget, -⟩ := Adam.loopSlots_char a (a.t + 1) sqrtf grads
      (grads.map (fun g => Mat.zeros g.rows g.cols))
      (grads.map (fun g => Mat.zeros g.rows g.cols)) r.1 r.2.1 r.2.2 (by rw [hr])
    rw [List.length_map] at hlen hm2 hv2
    refine ⟨by omega, by simpa using hm2, by simpa using hv2, ?_⟩
    intro i hi
    have hig : i < grads.length := by omega
    have := hget i hi
    rw [getD_map_zeros grads i hig] at this
    exact this
  · intro hm
    rw [if_neg hm, if_neg hm] at hr
    obtain ⟨hlen, hm2, hv2, hget, -⟩ := Adam.loopSlots_char a (a.t + 1) sqrtf grads
      a.m a.v r.1 r.2.1 r.2.2 (by rw [hr])
    exact ⟨hlen, hm2, hv2, hget⟩

/-- Witness for `C7_adam_update_formulas`: one step of the reference Adam
from a fresh state over a single 1×1 gradient, with `sqrtf = id`. -/
theorem C7_adam_update_formulas_witness :
    (Adam.mk 1 (1/2) (1/2) 1 [⟨[[1/2]]⟩] [⟨[[1/2]]⟩] 1).t
      = (Adam.new 1 (1/2) (1/2) 1).t + 1 :=
  (C7_adam_update_formulas (Adam.new 1 (1/2) (1/2) 1) id [⟨[[1]]⟩]
    (Adam.mk 1 (1/2) (1/2) 1 [⟨[[1/2]]⟩] [⟨[[1/2]]⟩] 1) [⟨[[-(1/2)]]⟩]
    (by decide)).1
